import Mathlib

/-!
Shallow embedding of the REXX control-flow parser (`src/parser.js`).

Strings are processed as `List Char` (the `.data` of a `String`); the
JavaScript `\s` whitespace class is modelled by `isWS`, `\w` by `isWordChar`,
and `String.prototype.toUpperCase` by `Char.toUpper` (the identifiers involved
are ASCII).  Node/edge collections mirror the insertion-ordered JS `Map` and
array; the edge-key set `from->to:type` is modelled by a membership test on
the `(from, to, type)` triple, which is equivalent because node ids are drawn
from character classes that contain none of `-`, `>`, `:`.
-/

namespace RexxFlow

/-- The single-quote character (used by the statement splitter). -/
def squote : Char := Char.ofNat 39

/-- JavaScript regex `\s` (restricted to the ASCII whitespace that can occur here). -/
def isWS (c : Char) : Bool :=
  c = ' ' || c = '\t' || c = '\n' || c = '\r' || c = Char.ofNat 11 || c = Char.ofNat 12

/-- JavaScript regex `\w`: `[A-Za-z0-9_]`. -/
def isWordChar (c : Char) : Bool :=
  ('A' ≤ c && c ≤ 'Z') || ('a' ≤ c && c ≤ 'z') || ('0' ≤ c && c ≤ '9') || c = '_'

/-- The label identifier class `[A-Za-z0-9_.$!?@#]` of the label regex. -/
def isLabelChar (c : Char) : Bool :=
  isWordChar c || c = '.' || c = '$' || c = '!' || c = '?' || c = '@' || c = '#'

/-- The call-target class `[A-Z0-9_.$!?@#]` of the call regex (the scanned text
is uppercased first, so there is no lowercase range). -/
def isTargetChar (c : Char) : Bool :=
  ('A' ≤ c && c ≤ 'Z') || ('0' ≤ c && c ≤ '9') ||
    c = '_' || c = '.' || c = '$' || c = '!' || c = '?' || c = '@' || c = '#'

/-- `source.split(/\r?\n/)`: cut at every `\n`, consuming one `\r` directly
before it; a lone `\r` stays in its line. -/
def splitLinesAux : List Char → List Char → List (List Char)
  | acc, '\r' :: '\n' :: rest => acc.reverse :: splitLinesAux [] rest
  | acc, '\n' :: rest => acc.reverse :: splitLinesAux [] rest
  | acc, c :: rest => splitLinesAux (c :: acc) rest
  | acc, [] => [acc.reverse]

def splitLines (l : List Char) : List (List Char) := splitLinesAux [] l

/-- The maximal runs of non-whitespace characters, in order (`collapse` joins
them with single spaces: `replace(/\s+/g, " ").trim()`). -/
def collapseChunks : List Char → List Char → List (List Char)
  | acc, [] => if acc = [] then [] else [acc.reverse]
  | acc, c :: rest =>
    if isWS c then
      if acc = [] then collapseChunks [] rest
      else acc.reverse :: collapseChunks [] rest
    else collapseChunks (c :: acc) rest

/-- `collapse` of the source: squeeze whitespace runs to one space and trim. -/
def collapse (l : List Char) : List Char :=
  List.intercalate [' '] (collapseChunks [] l)

/-- `normalizeLabel`: trim then uppercase. -/
def trimWS (l : List Char) : List Char :=
  ((l.dropWhile isWS).reverse.dropWhile isWS).reverse

def normalizeLabel (l : List Char) : String :=
  ⟨(trimWS l).map Char.toUpper⟩

/-- `stripComments` body: one pass over a line with the open-block-comment
flag, looking at the two-character window `slice(i, i+2)`; `/*` opens (when
outside), `*/` closes (when inside), and both consume two characters;
characters inside the comment are dropped, the rest is kept.  On the last
character the window is one character wide, so neither marker matches. -/
def stripCommentsList : Bool → List Char → List Char × Bool
  | inBC, [] => ([], inBC)
  | inBC, [c] => (if inBC then [] else [c], inBC)
  | inBC, c :: d :: rest =>
    if inBC = false ∧ c = '/' ∧ d = '*' then stripCommentsList true rest
    else if inBC = true ∧ c = '*' ∧ d = '/' then stripCommentsList false rest
    else if inBC then stripCommentsList true (d :: rest)
    else
      let r := stripCommentsList false (d :: rest)
      (c :: r.1, r.2)

/-- `splitStatements` loop: split on `;` outside quotes; either quote char
opens a literal closed only by the same char; each statement is collapsed and
empty statements are dropped; the tail is flushed at end of line. -/
def splitStatementsAux : List Char → Option Char → List Char → List (List Char)
  | [], _, current =>
    let tail := collapse current.reverse
    if tail = [] then [] else [tail]
  | ch :: rest, some q, current =>
    if ch = q then splitStatementsAux rest none (ch :: current)
    else splitStatementsAux rest (some q) (ch :: current)
  | ch :: rest, none, current =>
    if ch = squote || ch = '"' then splitStatementsAux rest (some ch) (ch :: current)
    else if ch = ';' then
      let stmt := collapse current.reverse
      if stmt = [] then splitStatementsAux rest none []
      else stmt :: splitStatementsAux rest none []
    else splitStatementsAux rest none (ch :: current)

def splitStatements (l : List Char) : List (List Char) :=
  splitStatementsAux l none []

/-! ### The graph data model -/

structure Node where
  id : String
  label : String
  line : Nat
  kind : String
deriving DecidableEq, Repr

structure Edge where
  «from» : String
  «to» : String
  type : String
  line : Nat
deriving DecidableEq, Repr

structure Graph where
  nodes : List Node
  edges : List Edge
deriving DecidableEq, Repr

/-- The merge step of `upsertNode` on the existing node: keep the minimum
line, and upgrade the kind to `function` only when the existing kind is not
`entry`. -/
def upsertMerge (line : Nat) (kind : String) (n : Node) : Node :=
  { n with
    line := if line < n.line then line else n.line,
    kind := if n.kind ≠ "entry" ∧ kind = "function" then kind else n.kind }

/-- `upsertNode`: insert a fresh node at the end (JS `Map` insertion order),
or merge into the node that already carries this id. -/
def upsertNode (nodes : List Node) (id label : String) (line : Nat) (kind : String) :
    List Node :=
  if nodes.any (fun n => n.id = id) then
    nodes.map (fun n => if n.id = id then upsertMerge line kind n else n)
  else nodes ++ [{ id := id, label := label, line := line, kind := kind }]

/-- `addEdge`: append unless an edge with the same `(from, to, type)` key is
already recorded (in which case nothing changes and the first line is kept). -/
def addEdge (edges : List Edge) (f t ty : String) (line : Nat) : List Edge :=
  if edges.any (fun e => e.«from» = f ∧ e.«to» = t ∧ e.type = ty) then edges
  else edges ++ [{ «from» := f, «to» := t, type := ty, line := line }]

/-! ### The call extractor: `/\bCALL\b\s*(VALUE\b|\(|([A-Z0-9_.$!?@#]+))/g` -/

inductive CallSite where
  | dyn
  | named (target : String)
deriving DecidableEq, Repr

def prevIsWord : Option Char → Bool
  | none => false
  | some c => isWordChar c

/-- Word boundary against the following character (end of string is a boundary). -/
def noWordAhead : List Char → Bool
  | [] => true
  | c :: _ => !isWordChar c

/-- The third regex alternative: a maximal run of target-class characters. -/
def namedTarget (rest : List Char) : Option (CallSite × Option Char × List Char) :=
  let t := rest.takeWhile isTargetChar
  if t = [] then none
  else some (.named (normalizeLabel t), some (t.getLastD ' '), rest.drop t.length)

/-- One attempted match of the call pattern at the head of the list, given the
character just before it (for the leading `\b`).  Returns the classified site,
the character before the resume position, and the remainder of the text. -/
def matchCallAt (prev : Option Char) : List Char → Option (CallSite × Option Char × List Char)
  | 'C' :: 'A' :: 'L' :: 'L' :: rest =>
    if prevIsWord prev then none
    else if !noWordAhead rest then none
    else
      let rest2 := rest.dropWhile isWS
      match rest2 with
      | 'V' :: 'A' :: 'L' :: 'U' :: 'E' :: rest3 =>
        if noWordAhead rest3 then some (.dyn, some 'E', rest3)
        else namedTarget rest2
      | '(' :: r => some (.dyn, some '(', r)
      | _ => namedTarget rest2
  | _ => none

/-- The `exec` loop: find all matches left to right, resuming after each
match; on failure at a position, advance one character.  The fuel starts at
the length of the text and never runs out because every step consumes at
least one character. -/
def findCallsAux : Nat → Option Char → List Char → List CallSite
  | 0, _, _ => []
  | _, _, [] => []
  | fuel + 1, prev, c :: rest =>
    match matchCallAt prev (c :: rest) with
    | some (site, p, rem) => site :: findCallsAux fuel p rem
    | none => findCallsAux fuel (some c) rest

def findCalls (l : List Char) : List CallSite :=
  findCallsAux l.length none l

/-- The body of the `while` loop in `processStatementBlock`: dynamic sites go
to the shared `DYNAMIC_CALL` sink; `ON`/`OFF` targets are skipped; any other
target becomes a `function` node and a `calls` edge. -/
def applyCall (scope : String) (lineNo : Nat) (acc : List Node × List Edge) :
    CallSite → List Node × List Edge
  | .dyn =>
    (upsertNode acc.1 "DYNAMIC_CALL" "DYNAMIC_CALL" lineNo "dynamic",
     addEdge acc.2 scope "DYNAMIC_CALL" "calls-dynamic" lineNo)
  | .named target =>
    if target = "ON" ∨ target = "OFF" then acc
    else
      (upsertNode acc.1 target target lineNo "function",
       addEdge acc.2 scope target "calls" lineNo)

/-- `processStatementBlock`: split the text into statements, uppercase each,
and fold every extracted call site into the node/edge state. -/
def processStatementBlock (text : List Char) (lineNo : Nat) (scope : String)
    (acc : List Node × List Edge) : List Node × List Edge :=
  (splitStatements text).foldl
    (fun acc seg => (findCalls (seg.map Char.toUpper)).foldl (applyCall scope lineNo) acc)
    acc

/-- The label regex `/^([A-Za-z0-9_.$!?@#]+)\s*:\s*(.*)$/`: a maximal nonempty
run of label characters, optional whitespace, a colon, then the rest of the
line with its leading whitespace removed. -/
def labelMatch (l : List Char) : Option (List Char × List Char) :=
  let name := l.takeWhile isLabelChar
  if name = [] then none
  else
    match (l.drop name.length).dropWhile isWS with
    | ':' :: r => some (name, r.dropWhile isWS)
    | _ => none

/-! ### The line-driver loop -/

structure ScanState where
  nodes : List Node
  edges : List Edge
  currentScope : String
  inBlockComment : Bool
deriving DecidableEq, Repr

/-- One iteration of the `for` loop over physical lines. -/
def scanLine (st : ScanState) (lineNo : Nat) (raw : List Char) : ScanState :=
  let stripped := stripCommentsList st.inBlockComment raw
  let line := collapse stripped.1
  if line = [] then
    { st with inBlockComment := stripped.2 }
  else
    match labelMatch line with
    | some (name, rest) =>
      let scope := normalizeLabel name
      let nodes := upsertNode st.nodes scope scope lineNo "function"
      let trailing := collapse rest
      if trailing = [] then
        { nodes := nodes, edges := st.edges, currentScope := scope,
          inBlockComment := stripped.2 }
      else
        let acc := processStatementBlock trailing lineNo scope (nodes, st.edges)
        { nodes := acc.1, edges := acc.2, currentScope := scope,
          inBlockComment := stripped.2 }
    | none =>
      let acc := processStatementBlock line lineNo st.currentScope (st.nodes, st.edges)
      { nodes := acc.1, edges := acc.2, currentScope := st.currentScope,
        inBlockComment := stripped.2 }

def scanLines (st : ScanState) (lineNo : Nat) : List (List Char) → ScanState
  | [] => st
  | l :: rest => scanLines (scanLine st lineNo l) (lineNo + 1) rest

/-- The `MAIN` entry node inserted before any scanning begins. -/
def mainNode : Node := { id := "MAIN", label := "MAIN", line := 1, kind := "entry" }

def initState : ScanState :=
  { nodes := [mainNode], edges := [], currentScope := "MAIN", inBlockComment := false }

/-! ### Output ordering and the top-level entry point -/

/-- Code-point lexicographic order on character lists (the model of the
`localeCompare` tie-break, adequate for the uppercase identifier charset). -/
def strLE : List Char → List Char → Bool
  | [], _ => true
  | _ :: _, [] => false
  | a :: as, b :: bs => if a = b then strLE as bs else decide (a < b)

/-- The sort comparator of `parseRexxControlFlow`: `MAIN` first, then by
ascending line, ties broken by ascending id. -/
def nodeLE (a b : Node) : Bool :=
  if a.id = "MAIN" then true
  else if b.id = "MAIN" then false
  else if a.line = b.line then strLE a.id.data b.id.data
  else decide (a.line ≤ b.line)

def nodeRel (a b : Node) : Prop := nodeLE a b = true

instance : DecidableRel nodeRel := fun a b => inferInstanceAs (Decidable (nodeLE a b = true))

/-- `parseRexxControlFlow`: scan all lines from the initial state, then order
the nodes with the comparator (the comparator is a strict total order on the
distinct-id node set, so any correct sort produces the JS result). -/
def parseRexxControlFlow (source : String) : Graph :=
  let final := scanLines initState 1 (splitLines source.data)
  { nodes := List.insertionSort nodeRel final.nodes, edges := final.edges }

/-! ### The DOT serializer -/

/-- One global replacement of a character by a string (JS `replace(/x/g, y)`). -/
def replaceChar (c : Char) (rep : List Char) : List Char → List Char
  | [] => []
  | x :: rest => (if x = c then rep else [x]) ++ replaceChar c rep rest

/-- `escapeDot`: double every backslash, then escape every double quote. -/
def escapeDot (s : String) : String :=
  ⟨replaceChar '"' ['\\', '"'] (replaceChar '\\' ['\\', '\\'] s.data)⟩

/-- JS `Array.prototype.join("\n")`. -/
def dotJoin : List String → String
  | [] => ""
  | [s] => s
  | s :: rest => s ++ "\n" ++ dotJoin rest

def nodeDotLine (n : Node) : String :=
  "  \"" ++ escapeDot n.id ++ "\" [label=\"" ++ escapeDot n.label ++ "\"];"

def edgeDotLine (e : Edge) : String :=
  "  \"" ++ escapeDot e.«from» ++ "\" -> \"" ++ escapeDot e.«to» ++ "\" [label=\""
    ++ escapeDot e.type ++ "\"];"

/-- `toDot`: header, `rankdir` line, one line per node, one line per edge, a
closing brace, joined with newlines. -/
def toDot (g : Graph) : String :=
  dotJoin (("digraph REXXControlFlow \x7b" :: "  rankdir=LR;" ::
    g.nodes.map nodeDotLine) ++ g.edges.map edgeDotLine ++ ["\x7d"])

/-! ### Scan-state invariants -/

/-- Per-node invariant: the `MAIN` node is exactly the initial entry node, and
every `dynamic`-kind node is the shared `DYNAMIC_CALL` sink. -/
def NodeOk (n : Node) : Prop :=
  (n.id = "MAIN" → n = mainNode) ∧ (n.kind = "dynamic" → n.id = "DYNAMIC_CALL")

/-- Node-collection invariant: exactly one `MAIN` node, distinct ids, and
every node individually well formed. -/
def NodesInv (ns : List Node) : Prop :=
  ns.countP (fun n => decide (n.id = "MAIN")) = 1 ∧
  ns.Pairwise (fun a b => a.id ≠ b.id) ∧
  ∀ n ∈ ns, NodeOk n

/-- Edge-collection invariant: no two edges share the `(from, to, type)` key. -/
def EdgesInv (es : List Edge) : Prop :=
  es.Pairwise (fun e1 e2 => ¬(e1.«from» = e2.«from» ∧ e1.«to» = e2.«to» ∧ e1.type = e2.type))

def AccInv (acc : List Node × List Edge) : Prop := NodesInv acc.1 ∧ EdgesInv acc.2

def StInv (st : ScanState) : Prop := NodesInv st.nodes ∧ EdgesInv st.edges

theorem foldl_preserve {α β : Type} {P : α → Prop} {f : α → β → α}
    (hf : ∀ a b, P a → P (f a b)) : ∀ (l : List β) (a : α), P a → P (List.foldl f a l)
  | [], _, h => h
  | b :: l, a, h => foldl_preserve hf l (f a b) (hf a b h)

theorem upsertSelect_id (id kind : String) (line : Nat) (n : Node) :
    (if n.id = id then upsertMerge line kind n else n).id = n.id := by
  split <;> rfl

theorem upsertMerge_main (kind : String) {line : Nat} (hline : 1 ≤ line) :
    upsertMerge line kind mainNode = mainNode := by
  have h1 : ¬ (line < 1) := by omega
  simp [upsertMerge, mainNode, h1]

theorem upsertNode_inv {ns : List Node} {id label kind : String} {line : Nat}
    (h : NodesInv ns) (hline : 1 ≤ line)
    (hkind : kind = "function" ∨ (id = "DYNAMIC_CALL" ∧ kind = "dynamic")) :
    NodesInv (upsertNode ns id label line kind) := by
  obtain ⟨hcount, hdist, hok⟩ := h
  unfold upsertNode
  split
  next hany =>
    refine ⟨?_, ?_, ?_⟩
    · rw [List.countP_map]
      refine (List.countP_congr ?_).trans hcount
      intro n _
      simp [Function.comp, upsertSelect_id id kind line n]
    · rw [List.pairwise_map]
      refine hdist.imp ?_
      intro a b hab
      rw [upsertSelect_id, upsertSelect_id]
      exact hab
    · intro m hm
      rw [List.mem_map] at hm
      obtain ⟨n, hn, rfl⟩ := hm
      have hnok := hok n hn
      split
      next heq =>
        constructor
        · intro hmain
          rw [upsertMerge] at hmain
          have hid : n.id = "MAIN" := hmain
          have hmn := hnok.1 hid
          rw [hmn, upsertMerge_main kind hline]
        · intro hdyn
          rw [upsertMerge] at hdyn
          simp only at hdyn
          split at hdyn
          next hcond => exact absurd (hcond.2 ▸ hdyn) (by decide)
          next => exact hnok.2 hdyn
      next => exact hnok
  next hany =>
    have hnotin : ∀ n ∈ ns, ¬ n.id = id := by
      intro n hn heq
      exact hany (List.any_eq_true.mpr ⟨n, hn, by simp [heq]⟩)
    have hidne : id ≠ "MAIN" := by
      intro hid
      subst hid
      have hpos : 0 < ns.countP (fun n => decide (n.id = "MAIN")) := by omega
      rw [List.countP_pos_iff] at hpos
      obtain ⟨n, hn, hp⟩ := hpos
      exact hnotin n hn (of_decide_eq_true hp)
    refine ⟨?_, ?_, ?_⟩
    · rw [List.countP_append, hcount]
      simp [hidne]
    · rw [List.pairwise_append]
      refine ⟨hdist, List.pairwise_singleton _ _, ?_⟩
      intro a ha b hb
      simp only [List.mem_singleton] at hb
      subst hb
      exact hnotin a ha
    · intro n hn
      rw [List.mem_append] at hn
      rcases hn with hn | hn
      · exact hok n hn
      · simp only [List.mem_singleton] at hn
        subst hn
        constructor
        · intro hmain
          exact absurd hmain hidne
        · intro hdyn
          have hdyn' : kind = "dynamic" := hdyn
          rcases hkind with hk | hk
          · rw [hk] at hdyn'
            exact absurd hdyn' (by decide)
          · exact hk.1

theorem addEdge_inv {es : List Edge} {f t ty : String} {line : Nat}
    (h : EdgesInv es) : EdgesInv (addEdge es f t ty line) := by
  unfold addEdge
  split
  next => exact h
  next hany =>
    rw [EdgesInv, List.pairwise_append]
    refine ⟨h, List.pairwise_singleton _ _, ?_⟩
    intro a ha b hb
    simp only [List.mem_singleton] at hb
    subst hb
    intro hcontra
    exact hany (List.any_eq_true.mpr ⟨a, ha, by simp [hcontra.1, hcontra.2.1, hcontra.2.2]⟩)

theorem applyCall_inv {scope : String} {lineNo : Nat} (hline : 1 ≤ lineNo)
    (acc : List Node × List Edge) (c : CallSite) (h : AccInv acc) :
    AccInv (applyCall scope lineNo acc c) := by
  cases c with
  | dyn =>
    simp only [applyCall]
    exact ⟨upsertNode_inv h.1 hline (Or.inr ⟨rfl, rfl⟩), addEdge_inv h.2⟩
  | named target =>
    simp only [applyCall]
    split
    next => exact h
    next => exact ⟨upsertNode_inv h.1 hline (Or.inl rfl), addEdge_inv h.2⟩

theorem processStatementBlock_inv {text : List Char} {lineNo : Nat} {scope : String}
    {acc : List Node × List Edge} (hline : 1 ≤ lineNo) (h : AccInv acc) :
    AccInv (processStatementBlock text lineNo scope acc) := by
  unfold processStatementBlock
  refine foldl_preserve ?_ _ _ h
  intro a seg ha
  exact foldl_preserve (fun a c hc => applyCall_inv hline a c hc) _ _ ha

theorem scanLine_inv {st : ScanState} {lineNo : Nat} {raw : List Char}
    (h : StInv st) (hline : 1 ≤ lineNo) : StInv (scanLine st lineNo raw) := by
  unfold scanLine
  dsimp only
  split
  next => exact h
  next =>
    split
    next name rest heq =>
      have hup : NodesInv (upsertNode st.nodes (normalizeLabel name) (normalizeLabel name)
          lineNo "function") := upsertNode_inv h.1 hline (Or.inl rfl)
      split
      next => exact ⟨hup, h.2⟩
      next =>
        have := @processStatementBlock_inv (collapse rest) lineNo (normalizeLabel name)
          (upsertNode st.nodes (normalizeLabel name) (normalizeLabel name) lineNo "function",
            st.edges) hline ⟨hup, h.2⟩
        exact ⟨this.1, this.2⟩
    next =>
      have := @processStatementBlock_inv
        (collapse (stripCommentsList st.inBlockComment raw).1) lineNo
        st.currentScope (st.nodes, st.edges) hline ⟨h.1, h.2⟩
      exact ⟨this.1, this.2⟩

theorem scanLines_inv : ∀ (ls : List (List Char)) (st : ScanState) (lineNo : Nat),
    StInv st → 1 ≤ lineNo → StInv (scanLines st lineNo ls)
  | [], _, _, h, _ => h
  | l :: rest, st, lineNo, h, hline =>
    scanLines_inv rest (scanLine st lineNo l) (lineNo + 1) (scanLine_inv h hline) (by omega)

theorem initState_inv : StInv initState := by
  refine ⟨⟨by decide, ?_, ?_⟩, List.Pairwise.nil⟩
  · exact List.pairwise_singleton _ _
  · intro n hn
    simp only [initState, List.mem_singleton] at hn
    subst hn
    exact ⟨fun _ => rfl, by decide⟩

/-- The final scan state of any input satisfies the invariants. -/
theorem finalState_inv (s : String) : StInv (scanLines initState 1 (splitLines s.data)) :=
  scanLines_inv _ _ _ initState_inv (by omega)

/-! ### The comparator is a total preorder -/

theorem strLE_total : ∀ a b : List Char, strLE a b = true ∨ strLE b a = true
  | [], _ => Or.inl rfl
  | _ :: _, [] => Or.inr rfl
  | a :: as, b :: bs => by
    by_cases hab : a = b
    · subst hab
      simp only [strLE, if_pos rfl]
      exact strLE_total as bs
    · rcases lt_or_gt_of_ne hab with hlt | hgt
      · left
        simp [strLE, hab, hlt]
      · right
        simp [strLE, Ne.symm hab, hgt]

theorem strLE_trans : ∀ a b c : List Char,
    strLE a b = true → strLE b c = true → strLE a c = true
  | [], _, _, _, _ => rfl
  | a :: as, [], _, h1, _ => by simp [strLE] at h1
  | _ :: _, _ :: _, [], _, h2 => by simp [strLE] at h2
  | a :: as, b :: bs, c :: cs, h1, h2 => by
    by_cases hab : a = b <;> by_cases hbc : b = c
    · subst hab; subst hbc
      simp only [strLE, if_pos rfl] at h1 h2 ⊢
      exact strLE_trans as bs cs h1 h2
    · subst hab
      simp only [strLE, if_neg hbc] at h2
      simp only [strLE, if_neg hbc]
      exact h2
    · subst hbc
      simp only [strLE, if_neg hab] at h1
      simp only [strLE, if_neg hab]
      exact h1
    · simp only [strLE, if_neg hab] at h1
      simp only [strLE, if_neg hbc] at h2
      have h1' : a < b := of_decide_eq_true h1
      have h2' : b < c := of_decide_eq_true h2
      have hac : a < c := lt_trans h1' h2'
      simp [strLE, ne_of_lt hac, hac]

theorem nodeLE_total (a b : Node) : nodeLE a b = true ∨ nodeLE b a = true := by
  unfold nodeLE
  by_cases ha : a.id = "MAIN"
  · simp [ha]
  · by_cases hb : b.id = "MAIN"
    · simp [ha, hb]
    · by_cases hl : a.line = b.line
      · simp only [if_neg ha, if_neg hb, if_pos hl, if_pos hl.symm]
        exact strLE_total a.id.data b.id.data
      · simp only [if_neg ha, if_neg hb, if_neg hl, if_neg (Ne.symm hl)]
        rcases Nat.le_total a.line b.line with h | h
        · left; exact decide_eq_true h
        · right; exact decide_eq_true h

theorem nodeLE_trans (a b c : Node) (h1 : nodeLE a b = true) (h2 : nodeLE b c = true) :
    nodeLE a c = true := by
  unfold nodeLE at h1 h2 ⊢
  by_cases ha : a.id = "MAIN"
  · simp [ha]
  · simp only [if_neg ha] at h1 ⊢
    by_cases hb : b.id = "MAIN"
    · simp [hb] at h1
    · simp only [if_neg hb] at h1 h2
      by_cases hc : c.id = "MAIN"
      · simp [hc] at h2
      · simp only [if_neg hc] at h2 ⊢
        by_cases hab : a.line = b.line <;> by_cases hbc : b.line = c.line
        · have hac : a.line = c.line := hab.trans hbc
          rw [if_pos hab] at h1
          rw [if_pos hbc] at h2
          rw [if_pos hac]
          exact strLE_trans _ _ _ h1 h2
        · rw [if_pos hab] at h1
          rw [if_neg hbc] at h2
          have h2' : b.line ≤ c.line := of_decide_eq_true h2
          have hac : a.line ≠ c.line := by omega
          rw [if_neg hac]
          exact decide_eq_true (by omega)
        · rw [if_neg hab] at h1
          rw [if_pos hbc] at h2
          have h1' : a.line ≤ b.line := of_decide_eq_true h1
          have hac : a.line ≠ c.line := by omega
          rw [if_neg hac]
          exact decide_eq_true (by omega)
        · rw [if_neg hab] at h1
          rw [if_neg hbc] at h2
          have h1' : a.line ≤ b.line := of_decide_eq_true h1
          have h2' : b.line ≤ c.line := of_decide_eq_true h2
          have hac : a.line ≠ c.line := by omega
          rw [if_neg hac]
          exact decide_eq_true (by omega)

instance : IsTotal Node nodeRel := ⟨nodeLE_total⟩

instance : IsTrans Node nodeRel := ⟨nodeLE_trans⟩

/-- The node list of any parse result satisfies the collection invariants
(transported through the final sort, which is a permutation). -/
theorem parse_nodesInv (s : String) : NodesInv (parseRexxControlFlow s).nodes := by
  have hfin := (finalState_inv s).1
  obtain ⟨hcount, hdist, hok⟩ := hfin
  have hperm : (parseRexxControlFlow s).nodes.Perm
      (scanLines initState 1 (splitLines s.data)).nodes :=
    List.perm_insertionSort nodeRel _
  refine ⟨?_, ?_, ?_⟩
  · rw [hperm.countP_eq]
    exact hcount
  · exact (hperm.pairwise_iff (fun h => Ne.symm h)).mpr hdist
  · intro n hn
    exact hok n (hperm.mem_iff.mp hn)

theorem parse_edgesInv (s : String) : EdgesInv (parseRexxControlFlow s).edges :=
  (finalState_inv s).2

theorem parse_nodes_sorted (s : String) :
    (parseRexxControlFlow s).nodes.Pairwise nodeRel :=
  List.sorted_insertionSort nodeRel _

/-! ### Unterminated block comments -/

/-- Whether the line contains the closing marker `*/` (two adjacent
characters) anywhere. -/
def hasStarSlash : List Char → Bool
  | [] => false
  | [_] => false
  | a :: b :: rest => (a = '*' && b = '/') || hasStarSlash (b :: rest)

/-- Inside an open block comment, a line without a closing marker is dropped
entirely and the comment stays open. -/
theorem strip_open : ∀ (l : List Char), hasStarSlash l = false →
    stripCommentsList true l = ([], true)
  | [], _ => rfl
  | [_], _ => rfl
  | a :: b :: rest, h => by
    simp only [hasStarSlash, Bool.or_eq_false_iff, Bool.and_eq_false_iff,
      decide_eq_false_iff_not] at h
    obtain ⟨hab, htail⟩ := h
    have hmark : ¬ (true = true ∧ a = '*' ∧ b = '/') := by
      rintro ⟨_, ha, hb⟩
      rcases hab with hx | hx
      · exact hx ha
      · exact hx hb
    show stripCommentsList true (a :: b :: rest) = ([], true)
    rw [stripCommentsList, if_neg (by simp), if_neg hmark, if_pos rfl]
    exact strip_open (b :: rest) (by
      simpa only [hasStarSlash, Bool.or_eq_false_iff, Bool.and_eq_false_iff,
        decide_eq_false_iff_not] using htail)

/-- A line scanned while an unclosed block comment is open changes nothing:
it produces no nodes, no edges, and no scope change, and the comment flag
stays set. -/
theorem scanLine_open {st : ScanState} (hst : st.inBlockComment = true)
    {lineNo : Nat} {raw : List Char} (h : hasStarSlash raw = false) :
    scanLine st lineNo raw = st := by
  unfold scanLine
  rw [hst, strip_open raw h]
  dsimp only
  rw [if_pos (show collapse [] = [] from rfl)]
  cases st
  simp_all

/-- Scanning any further lines while an unclosed block comment is open leaves
the whole scan state unchanged. -/
theorem scanLines_open : ∀ (ls : List (List Char)) (st : ScanState) (n : Nat),
    st.inBlockComment = true → (∀ l ∈ ls, hasStarSlash l = false) →
    scanLines st n ls = st
  | [], _, _, _, _ => rfl
  | l :: rest, st, n, hst, h => by
    rw [scanLines, scanLine_open hst (h l (List.mem_cons_self l rest))]
    exact scanLines_open rest st (n + 1) hst (fun x hx => h x (List.mem_cons_of_mem l hx))

/-- The first node of any parse result is the `MAIN` entry node. -/
theorem parse_head_main (s : String) :
    (parseRexxControlFlow s).nodes.head? = some mainNode := by
  obtain ⟨hcount, hdist, hok⟩ := parse_nodesInv s
  have hsorted := parse_nodes_sorted s
  have hpos : 0 < (parseRexxControlFlow s).nodes.countP (fun n => decide (n.id = "MAIN")) := by
    omega
  rw [List.countP_pos_iff] at hpos
  obtain ⟨m, hm, hpm⟩ := hpos
  have hmid : m.id = "MAIN" := of_decide_eq_true hpm
  have hmmain : m = mainNode := (hok m hm).1 hmid
  cases hns : (parseRexxControlFlow s).nodes with
  | nil => rw [hns] at hm; cases hm
  | cons x rest =>
    rw [hns] at hm hsorted
    show some x = some mainNode
    rcases List.mem_cons.mp hm with heq | hmrest
    · rw [← heq, hmmain]
    · have hrel : nodeRel x m := (List.pairwise_cons.mp hsorted).1 m hmrest
      have hxid : x.id = "MAIN" := by
        by_contra hne
        unfold nodeRel nodeLE at hrel
        rw [if_neg hne, if_pos hmid] at hrel
        exact Bool.false_ne_true hrel
      have hx : x = mainNode := (hok x (hns ▸ List.mem_cons_self x rest)).1 hxid
      rw [hx]

/-- Whether `needle` occurs as a contiguous substring of the haystack. -/
def containsSub (needle : List Char) : List Char → Bool
  | [] => needle.isPrefixOf []
  | c :: rest => needle.isPrefixOf (c :: rest) || containsSub needle rest

/-- `dotJoin` agrees with the library's newline-intercalation. -/
theorem dotJoin_merge (acc a : String) : ∀ as : List String,
    dotJoin ((acc ++ "\n" ++ a) :: as) = acc ++ "\n" ++ dotJoin (a :: as)
  | [] => rfl
  | b :: bs => by
    show (acc ++ "\n" ++ a) ++ "\n" ++ dotJoin (b :: bs) = acc ++ "\n" ++ (a ++ "\n" ++ dotJoin (b :: bs))
    simp [String.append_assoc]

theorem intercalate_go_eq : ∀ (as : List String) (acc : String),
    String.intercalate.go acc "\n" as = dotJoin (acc :: as)
  | [], _ => rfl
  | a :: as, acc => by
    rw [String.intercalate.go, intercalate_go_eq as (acc ++ "\n" ++ a), dotJoin_merge]
    rfl

theorem dotJoin_eq_intercalate : ∀ l : List String, dotJoin l = String.intercalate "\n" l
  | [] => rfl
  | a :: as => (intercalate_go_eq as a).symm

/-! ### The claims -/

/-- C1: for every input, including the empty string, the graph contains
exactly one node with id `MAIN` and kind `entry`; its line is 1 and no later
occurrence of `MAIN` changes its kind or raises its line; the empty input
yields exactly this node and no edges. -/
theorem claim_C1 (s : String) :
    (parseRexxControlFlow s).nodes.countP
      (fun n => decide (n.id = "MAIN" ∧ n.kind = "entry")) = 1 ∧
    (∀ n ∈ (parseRexxControlFlow s).nodes, n.id = "MAIN" →
      n.kind = "entry" ∧ n.line = 1) ∧
    parseRexxControlFlow "" = { nodes := [mainNode], edges := [] } := by
  obtain ⟨hcount, hdist, hok⟩ := parse_nodesInv s
  refine ⟨?_, ?_, by decide⟩
  · refine (List.countP_congr fun n hn => ?_).trans hcount
    simp only [decide_eq_true_eq]
    constructor
    · rintro ⟨h1, _⟩
      exact h1
    · intro h1
      refine ⟨h1, ?_⟩
      rw [(hok n hn).1 h1]
      exact rfl
  · intro n hn hid
    rw [(hok n hn).1 hid]
    exact ⟨rfl, rfl⟩

/-- C2: edge identity is the `(from, to, type)` triple — the edge list never
holds two edges with the same triple, re-adding a recorded triple changes
nothing (the first line is kept), and `CALL A; CALL A; CALL A` yields exactly
one edge. -/
theorem claim_C2 (s : String) :
    (parseRexxControlFlow s).edges.Pairwise
      (fun e1 e2 => ¬(e1.«from» = e2.«from» ∧ e1.«to» = e2.«to» ∧ e1.type = e2.type)) ∧
    addEdge [{ «from» := "MAIN", «to» := "A", type := "calls", line := 1 }] "MAIN" "A" "calls" 7 =
      [{ «from» := "MAIN", «to» := "A", type := "calls", line := 1 }] ∧
    parseRexxControlFlow "CALL A; CALL A; CALL A" =
      { nodes := [mainNode, { id := "A", label := "A", line := 1, kind := "function" }],
        edges := [{ «from» := "MAIN", «to» := "A", type := "calls", line := 1 }] } :=
  ⟨parse_edgesInv s, by decide, by decide⟩

/-- C4: statement splitting is quote-aware — a semicolon inside a single- or
double-quoted literal does not separate, a literal ends only at the same
quote character (or implicitly at end of line), empty statements are dropped,
and `CALL A; SAY 'x;y'; CALL B` produces exactly the two call edges. -/
theorem claim_C4 :
    splitStatements "CALL A; SAY 'x;y'; CALL B".data =
      ["CALL A".data, "SAY 'x;y'".data, "CALL B".data] ∧
    splitStatements "SAY 'a;b".data = ["SAY 'a;b".data] ∧
    splitStatements "SAY \"x;y\"; CALL B".data = ["SAY \"x;y\"".data, "CALL B".data] ∧
    splitStatements "SAY 'a\"b;c'; CALL D".data = ["SAY 'a\"b;c'".data, "CALL D".data] ∧
    splitStatements ";;CALL A;".data = ["CALL A".data] ∧
    parseRexxControlFlow "CALL A; SAY 'x;y'; CALL B" =
      { nodes := [mainNode,
          { id := "A", label := "A", line := 1, kind := "function" },
          { id := "B", label := "B", line := 1, kind := "function" }],
        edges := [{ «from» := "MAIN", «to» := "A", type := "calls", line := 1 },
          { «from» := "MAIN", «to» := "B", type := "calls", line := 1 }] } :=
  ⟨by decide, by decide, by decide, by decide, by decide, by decide⟩

/-- C5: a call followed by `VALUE` or `(` targets the single shared
`DYNAMIC_CALL` node with a `calls-dynamic` edge (never two distinct dynamic
nodes); a target normalizing to `ON` or `OFF` adds nothing; any other target
becomes a `function` node with a `calls` edge. -/
theorem claim_C5 (s : String) :
    (∀ n ∈ (parseRexxControlFlow s).nodes, n.kind = "dynamic" → n.id = "DYNAMIC_CALL") ∧
    parseRexxControlFlow "CALL VALUE expr" =
      { nodes := [mainNode,
          { id := "DYNAMIC_CALL", label := "DYNAMIC_CALL", line := 1, kind := "dynamic" }],
        edges := [{ «from» := "MAIN", «to» := "DYNAMIC_CALL", type := "calls-dynamic", line := 1 }] } ∧
    parseRexxControlFlow "CALL (name)" =
      { nodes := [mainNode,
          { id := "DYNAMIC_CALL", label := "DYNAMIC_CALL", line := 1, kind := "dynamic" }],
        edges := [{ «from» := "MAIN", «to» := "DYNAMIC_CALL", type := "calls-dynamic", line := 1 }] } ∧
    parseRexxControlFlow "CALL VALUE expr\nCALL (name)" =
      { nodes := [mainNode,
          { id := "DYNAMIC_CALL", label := "DYNAMIC_CALL", line := 1, kind := "dynamic" }],
        edges := [{ «from» := "MAIN", «to» := "DYNAMIC_CALL", type := "calls-dynamic", line := 1 }] } ∧
    parseRexxControlFlow "CALL on" = { nodes := [mainNode], edges := [] } ∧
    parseRexxControlFlow "CALL off" = { nodes := [mainNode], edges := [] } ∧
    parseRexxControlFlow "call foo" =
      { nodes := [mainNode, { id := "FOO", label := "FOO", line := 1, kind := "function" }],
        edges := [{ «from» := "MAIN", «to» := "FOO", type := "calls", line := 1 }] } := by
  refine ⟨?_, by decide, by decide, by decide, by decide, by decide, by decide⟩
  intro n hn
  exact ((parse_nodesInv s).2.2 n hn).2

/-- C6: call extraction covers the whole statement — every call-keyword
occurrence is extracted, resuming after each match, so a call nested in a
conditional (`if cond then call log text` under scope `WORKER`) is found. -/
theorem claim_C6 :
    processStatementBlock "if cond then call log text".data 1 "WORKER" ([], []) =
      ([{ id := "LOG", label := "LOG", line := 1, kind := "function" }],
       [{ «from» := "WORKER", «to» := "LOG", type := "calls", line := 1 }]) ∧
    findCalls "CALL A THEN CALL B".data = [CallSite.named "A", CallSite.named "B"] ∧
    parseRexxControlFlow
        "Msg: procedure expose logEnabled\n  if logEnabled then call Log text\n  return\nLog: procedure\n  return\n" =
      { nodes := [mainNode,
          { id := "MSG", label := "MSG", line := 1, kind := "function" },
          { id := "LOG", label := "LOG", line := 2, kind := "function" }],
        edges := [{ «from» := "MSG", «to» := "LOG", type := "calls", line := 2 }] } :=
  ⟨by decide, by decide, by decide⟩

/-- C3: when a line matches a label declaration, the current scope becomes
the uppercased trimmed label, a `function` node for it is upserted at that
line, and non-empty trailing text after the colon is processed as statements
under the new scope; in particular the six-line example produces nodes
`MAIN`, `INIT`, `UTIL` and edges `MAIN→INIT`, `INIT→UTIL`. -/
theorem claim_C3 {st : ScanState} {lineNo : Nat} {raw name rest : List Char}
    (h : labelMatch (collapse (stripCommentsList st.inBlockComment raw).1) =
      some (name, rest)) :
    (scanLine st lineNo raw).currentScope = normalizeLabel name ∧
    (scanLine st lineNo raw).nodes =
      (if collapse rest = []
        then upsertNode st.nodes (normalizeLabel name) (normalizeLabel name) lineNo "function"
        else (processStatementBlock (collapse rest) lineNo (normalizeLabel name)
          (upsertNode st.nodes (normalizeLabel name) (normalizeLabel name) lineNo "function",
            st.edges)).1) ∧
    (scanLine st lineNo raw).edges =
      (if collapse rest = [] then st.edges
        else (processStatementBlock (collapse rest) lineNo (normalizeLabel name)
          (upsertNode st.nodes (normalizeLabel name) (normalizeLabel name) lineNo "function",
            st.edges)).2) ∧
    parseRexxControlFlow "CALL INIT\nINIT:\nCALL UTIL\nRETURN\nUTIL:\nRETURN" =
      { nodes := [mainNode,
          { id := "INIT", label := "INIT", line := 1, kind := "function" },
          { id := "UTIL", label := "UTIL", line := 3, kind := "function" }],
        edges := [{ «from» := "MAIN", «to» := "INIT", type := "calls", line := 1 },
          { «from» := "INIT", «to» := "UTIL", type := "calls", line := 3 }] } ∧
    parseRexxControlFlow "foo: call bar" =
      { nodes := [mainNode,
          { id := "BAR", label := "BAR", line := 1, kind := "function" },
          { id := "FOO", label := "FOO", line := 1, kind := "function" }],
        edges := [{ «from» := "FOO", «to» := "BAR", type := "calls", line := 1 }] } := by
  have hne : collapse (stripCommentsList st.inBlockComment raw).1 ≠ [] := by
    intro he
    rw [he] at h
    exact Option.noConfusion h
  refine ⟨?_, ?_, ?_, by decide, by decide⟩ <;>
    (unfold scanLine
     dsimp only
     rw [if_neg hne, h]
     dsimp only
     by_cases hc : collapse rest = [] <;> simp [hc])

/-- C3 witness: a concrete label line on which the hypothesis holds. -/
theorem claim_C3_witness :
    labelMatch (collapse (stripCommentsList initState.inBlockComment "INIT: CALL UTIL".data).1) =
      some ("INIT".data, "CALL UTIL".data) ∧
    (scanLine initState 1 "INIT: CALL UTIL".data).currentScope = normalizeLabel "INIT".data :=
  ⟨by decide, (@claim_C3 initState 1 "INIT: CALL UTIL".data "INIT".data "CALL UTIL".data
    (by decide)).1⟩

/-- C7: once a block comment is open and never closed, every remaining line
contributes no nodes, edges or scope changes and the scan completes normally;
at the whole-program level an unterminated comment swallows the rest of the
input. -/
theorem claim_C7 (st : ScanState) (n : Nat) (ls : List (List Char))
    (h1 : st.inBlockComment = true) (h2 : ∀ l ∈ ls, hasStarSlash l = false) :
    scanLines st n ls = st ∧
    parseRexxControlFlow "CALL A\n/* open\nB:\nCALL C" =
      parseRexxControlFlow "CALL A\n/* open" :=
  ⟨scanLines_open ls st n h1 h2, by decide⟩

/-- C7 witness: a concrete open-comment state and comment-free-closing lines. -/
theorem claim_C7_witness :
    ((⟨[mainNode], [], "MAIN", true⟩ : ScanState).inBlockComment = true) ∧
    (∀ l ∈ ["CALL X".data, "LBL: CALL Y".data], hasStarSlash l = false) ∧
    scanLines ⟨[mainNode], [], "MAIN", true⟩ 2 ["CALL X".data, "LBL: CALL Y".data] =
      ⟨[mainNode], [], "MAIN", true⟩ :=
  ⟨rfl, by decide,
    (claim_C7 ⟨[mainNode], [], "MAIN", true⟩ 2 ["CALL X".data, "LBL: CALL Y".data]
      rfl (by decide)).1⟩

/-- C8: in every parse result the `MAIN` node comes first, the remaining
nodes are ordered by ascending line with ties broken by ascending id, and the
edge sequence is exactly the scan's discovery order. -/
theorem claim_C8 (s : String) :
    (parseRexxControlFlow s).nodes.head? = some mainNode ∧
    (parseRexxControlFlow s).nodes.Pairwise (fun a b =>
      a.id = "MAIN" ∨ (b.id ≠ "MAIN" ∧
        (a.line < b.line ∨ (a.line = b.line ∧ strLE a.id.data b.id.data = true ∧ a.id ≠ b.id)))) ∧
    (parseRexxControlFlow s).edges = (scanLines initState 1 (splitLines s.data)).edges := by
  refine ⟨parse_head_main s, ?_, rfl⟩
  have hpair := (parse_nodes_sorted s).and (parse_nodesInv s).2.1
  refine hpair.imp ?_
  rintro a b ⟨hle, hne⟩
  unfold nodeRel nodeLE at hle
  by_cases ha : a.id = "MAIN"
  · exact Or.inl ha
  · rw [if_neg ha] at hle
    by_cases hb : b.id = "MAIN"
    · rw [if_pos hb] at hle
      exact absurd hle (by decide)
    · rw [if_neg hb] at hle
      refine Or.inr ⟨hb, ?_⟩
      by_cases hl : a.line = b.line
      · rw [if_pos hl] at hle
        exact Or.inr ⟨hl, hle, hne⟩
      · rw [if_neg hl] at hle
        exact Or.inl (lt_of_le_of_ne (of_decide_eq_true hle) hl)

/-- C9: `toDot` is exactly the newline-join of the header line, the
`rankdir` line, one declaration line per node in node order, one per edge in
edge order, and a closing brace, with backslashes doubled and then quotes
escaped in every quoted field; the concrete example has the expected header,
`rankdir` line, and `"MAIN" -> "A"` edge line. -/
theorem claim_C9 (g : Graph) :
    toDot g = String.intercalate "\n"
      (["digraph REXXControlFlow \x7b", "  rankdir=LR;"]
        ++ g.nodes.map (fun n =>
          "  \"" ++ escapeDot n.id ++ "\" [label=\"" ++ escapeDot n.label ++ "\"];")
        ++ g.edges.map (fun e =>
          "  \"" ++ escapeDot e.«from» ++ "\" -> \"" ++ escapeDot e.«to» ++ "\" [label=\""
            ++ escapeDot e.type ++ "\"];")
        ++ ["\x7d"]) ∧
    escapeDot "a\\b\"c" = "a\\\\b\\\"c" ∧
    ("digraph REXXControlFlow \x7b".data).isPrefixOf
      (toDot (parseRexxControlFlow "CALL A\nA: RETURN")).data = true ∧
    ((splitLines (toDot (parseRexxControlFlow "CALL A\nA: RETURN")).data).any
      (fun l => containsSub "rankdir=LR;".data l)) = true ∧
    ((splitLines (toDot (parseRexxControlFlow "CALL A\nA: RETURN")).data).any
      (fun l => containsSub "\"MAIN\" -> \"A\"".data l)) = true := by
  refine ⟨?_, by decide, by decide, by decide, by decide⟩
  rw [← dotJoin_eq_intercalate]
  rfl

/-- C10: the call extractor is not quote-aware within a statement — a call
keyword inside a string literal is still extracted, so `SAY 'CALL X'` yields
a node `X` and the edge `(MAIN, X, calls)`. -/
theorem claim_C10 :
    parseRexxControlFlow "SAY 'CALL X'" =
      { nodes := [mainNode, { id := "X", label := "X", line := 1, kind := "function" }],
        edges := [{ «from» := "MAIN", «to» := "X", type := "calls", line := 1 }] } := by
  decide

end RexxFlow
